import Mathlib

/-
Verification of the single-spa reroute engine, lifecycle load driver and
deferred navigation-event machinery, as a shallow embedding of
src/navigation/reroute.js, src/lifecycles/load.js and the
navigation-events module.

Conventions of the embedding:
- JavaScript promises are modelled either as settled outcomes (for the load
  driver, whose control flow is a finite case split over the behaviour of
  the user-supplied loading function) or as settle timestamps in an abstract
  discrete time line (for the reroute cycle, whose claims are about the
  relative order of lifecycle operations).
- Listener functions are identified by natural-number ids; the registry of
  captured listeners stores those ids in registration order.
- The callee lifecycle drivers toBootstrapPromise / toMountPromise /
  toUnmountPromise / toUnloadPromise are opaque asynchronous operations in
  the reroute model: only the instant at which reroute.js invokes them and
  a caller-chosen latency matter for the scheduling claims.
-/

namespace SingleSpa

/-- Arguments of a captured DOM navigation event: its type string
(element zero of the JavaScript arguments object) and an opaque payload. -/
structure EvArgs where
  type : String
  payload : Nat
deriving DecidableEq, Repr

/-- One queued reroute request (reroute.js pushes
resolve/reject/eventArguments onto peopleWaitingOnAppChange);
the resolve/reject pair is identified by id. -/
structure PendingReq where
  id : Nat
  eventArguments : Option EvArgs
deriving DecidableEq, Repr

/-- Event kinds whose listeners single-spa captures
(routingEventsListeningTo from the navigation-events module). -/
def routingEventsListeningTo : List String := ["hashchange", "popstate"]

/-- The capturedEventListeners object of the navigation-events module:
one ordered list of listener ids per captured event kind. -/
structure Registry where
  hashchange : List Nat
  popstate : List Nat
deriving DecidableEq, Repr

/-- Reads capturedEventListeners[t]. -/
def lookupListeners (reg : Registry) (t : String) : List Nat :=
  if t = "hashchange" then reg.hashchange
  else if t = "popstate" then reg.popstate
  else []

/-- Writes capturedEventListeners[t]. -/
def setListeners (reg : Registry) (t : String) (l : List Nat) : Registry :=
  if t = "hashchange" then { reg with hashchange := l }
  else if t = "popstate" then { reg with popstate := l }
  else reg

/-- One invocation of a captured listener during replay: which listener ran
and with what event arguments. -/
structure ListenerInvocation where
  listener : Nat
  args : EvArgs
deriving DecidableEq, Repr

/-- Observable output of a replay: the invocations in order, and the
listeners whose invocation threw (their errors are rethrown asynchronously
through setTimeout, outside the replay loop). -/
structure ReplayOut where
  calls : List ListenerInvocation
  deferredErrors : List Nat
deriving DecidableEq, Repr

/-- Concatenation of two replay outputs in order. -/
def ReplayOut.append (a b : ReplayOut) : ReplayOut :=
  { calls := a.calls ++ b.calls, deferredErrors := a.deferredErrors ++ b.deferredErrors }

/-- callCapturedEventListeners of the navigation-events module: when event
arguments are present and their type is a captured kind, iterate the
captured listeners of that kind in registration order, invoking each with
the arguments inside a try/catch whose catch defers the error; otherwise do
nothing. The oracle throws says which invocations throw. -/
def callCapturedEventListeners (reg : Registry) (throws : Nat → EvArgs → Bool)
    (ea : Option EvArgs) : ReplayOut :=
  match ea with
  | none => { calls := [], deferredErrors := [] }
  | some args =>
    if routingEventsListeningTo.contains args.type then
      (lookupListeners reg args.type).foldl
        (fun acc l =>
          { calls := acc.calls ++ [ListenerInvocation.mk l args],
            deferredErrors := acc.deferredErrors ++ (if throws l args then [l] else []) })
        { calls := [], deferredErrors := [] }
    else { calls := [], deferredErrors := [] }

/-- callAllEventListeners of reroute.js: during silent navigation nothing
is replayed; otherwise replay the event arguments of every queued pending
request in queue order and then the event arguments of the current
cycle. -/
def callAllEventListeners (silent : Bool) (reg : Registry)
    (throws : Nat → EvArgs → Bool) (pending : List PendingReq)
    (cur : Option EvArgs) : ReplayOut :=
  if silent then { calls := [], deferredErrors := [] }
  else
    ReplayOut.append
      (pending.foldl
        (fun acc p => ReplayOut.append acc (callCapturedEventListeners reg throws p.eventArguments))
        { calls := [], deferredErrors := [] })
      (callCapturedEventListeners reg throws cur)

/-- Replay order as the specification words it, written from the spec text
for comparison with callAllEventListeners: every captured listener of the
relevant kind, in registration order, first with the arguments of each
queued request oldest first and then with the triggering event of the
current cycle. -/
def replaySpecCalls (reg : Registry) (pending : List PendingReq)
    (cur : Option EvArgs) : List ListenerInvocation :=
  ((pending.map (fun p => p.eventArguments) ++ [cur]).map (fun ea =>
    match ea with
    | none => []
    | some args =>
      if routingEventsListeningTo.contains args.type then
        (lookupListeners reg args.type).map (fun l => ListenerInvocation.mk l args)
      else [])).flatten

/-- State touched by the patched window.addEventListener and
window.removeEventListener: the captured-listener registry plus logs of the
calls forwarded to the original (native) functions. -/
structure WindowEnv where
  captured : Registry
  nativeAddCalls : List (String × Nat)
  nativeRemoveCalls : List (String × Nat)
deriving DecidableEq, Repr

/-- The patched window.addEventListener of patchHistoryApi, for a function
argument fn: when the event kind is captured and fn is not already in the
registry of that kind (the check uses find over the registered listeners),
append fn to the registry and return; otherwise forward the call to the
original addEventListener. -/
def patchedAddEventListener (w : WindowEnv) (eventName : String) (fn : Nat) :
    WindowEnv :=
  if routingEventsListeningTo.contains eventName
      && !((lookupListeners w.captured eventName).any (fun l => l == fn)) then
    { w with captured :=
        setListeners w.captured eventName (lookupListeners w.captured eventName ++ [fn]) }
  else
    { w with nativeAddCalls := w.nativeAddCalls ++ [(eventName, fn)] }

/-- The patched window.removeEventListener of patchHistoryApi, for a
function argument: when the event kind is captured, filter every occurrence
of the listener out of the registry of that kind; in all cases the call is
then forwarded to the original removeEventListener. -/
def patchedRemoveEventListener (w : WindowEnv) (eventName : String) (fn : Nat) :
    WindowEnv :=
  let filtered := (lookupListeners w.captured eventName).filter (fun l => !(l == fn))
  let w1 :=
    if routingEventsListeningTo.contains eventName then
      { w with captured := setListeners w.captured eventName filtered }
    else w
  { w1 with nativeRemoveCalls := w1.nativeRemoveCalls ++ [(eventName, fn)] }

/-- The arguments with which finishUpAndReturn re-invokes reroute, or with
which a fresh external call enters it: queued pending promises, the
triggering event arguments, and the silentNavigation flag. -/
structure CycleStart where
  pendingPromises : List PendingReq
  eventArguments : Option EvArgs
  silentNavigation : Bool
deriving DecidableEq, Repr

/-- The module-level scheduling state of reroute.js (appChangeUnderway and
peopleWaitingOnAppChange), extended with runningCycles, a ghost counter of
how many cycles are currently executing phase-transition logic. -/
structure SchedState where
  appChangeUnderway : Bool
  peopleWaitingOnAppChange : List PendingReq
  runningCycles : Nat
deriving DecidableEq, Repr

/-- The entry of reroute in started mode: when a change is underway the
caller is pushed onto peopleWaitingOnAppChange and no cycle starts;
otherwise appChangeUnderway is set and one cycle starts for this caller
with an empty pending list. -/
def rerouteEntry (s : SchedState) (req : PendingReq) :
    SchedState × List CycleStart :=
  if s.appChangeUnderway then
    ({ s with peopleWaitingOnAppChange := s.peopleWaitingOnAppChange ++ [req] }, [])
  else
    ({ s with appChangeUnderway := true, runningCycles := s.runningCycles + 1 },
      [CycleStart.mk [] req.eventArguments false])

/-- finishUpAndReturn of reroute.js, restricted to its scheduling effect:
clear appChangeUnderway, and when callers queued during the cycle, start
exactly one further cycle carrying all of them and empty the queue. -/
def finishUpAndReturn (s : SchedState) : SchedState × List CycleStart :=
  let s1 : SchedState :=
    { s with appChangeUnderway := false, runningCycles := s.runningCycles - 1 }
  if s1.peopleWaitingOnAppChange.isEmpty then (s1, [])
  else
    ({ appChangeUnderway := true, peopleWaitingOnAppChange := [],
       runningCycles := s1.runningCycles + 1 },
      [CycleStart.mk s1.peopleWaitingOnAppChange none false])

/-- Stimuli the scheduling state reacts to: an external reroute call, or
the currently running cycle reaching finishUpAndReturn. A finish stimulus
while no cycle runs does nothing (in the code finishUpAndReturn only ever
executes inside a running cycle). -/
inductive SchedOp where
  | externalCall (req : PendingReq)
  | cycleFinish
deriving DecidableEq, Repr

/-- One scheduling transition. -/
def schedStep (s : SchedState) : SchedOp → SchedState × List CycleStart
  | SchedOp.externalCall req => rerouteEntry s req
  | SchedOp.cycleFinish =>
    if s.appChangeUnderway then finishUpAndReturn s else (s, [])

/-- A sequence of scheduling transitions, collecting every cycle start. -/
def schedRun (s : SchedState) : List SchedOp → SchedState × List CycleStart
  | [] => (s, [])
  | op :: ops =>
    let r := schedStep s op
    let t := schedRun r.1 ops
    (t.1, r.2 ++ t.2)

/-- The requests of a stimulus sequence that arrive while a change is
underway and are therefore queued, in arrival order. -/
def queuedRequests (s : SchedState) : List SchedOp → List PendingReq
  | [] => []
  | op :: ops =>
    (match op with
      | SchedOp.externalCall req => if s.appChangeUnderway then [req] else []
      | SchedOp.cycleFinish => []) ++ queuedRequests (schedStep s op).1 ops

/-- The scheduling invariant: the ghost cycle counter agrees with the
appChangeUnderway flag. -/
def schedInv (s : SchedState) : Prop :=
  s.runningCycles = (if s.appChangeUnderway then 1 else 0)

namespace Reroute

/-- The five lifecycle phases a reroute cycle drives. -/
inductive Phase where
  | load
  | bootstrap
  | mount
  | unmount
  | unload
deriving DecidableEq, Repr

/-- Kinds of observable steps of a reroute cycle: a lifecycle operation on
an app, a shouldBeActive eligibility check with its result, the release
point at which captured event listeners are called, and a dispatched
single-spa window event. -/
inductive EvKind where
  | phase (p : Phase) (app : String)
  | check (app : String) (result : Bool)
  | release
  | fire (name : String)
deriving DecidableEq, Repr

/-- An observable step: the instant it begins, the instant the underlying
promise settles, and its kind; checks, releases and event dispatches are
instantaneous. -/
structure Ev where
  start : Nat
  finish : Nat
  kind : EvKind
deriving DecidableEq, Repr

/-- The oracle of a cycle: the latency of each lifecycle operation on each
app, and the time-varying shouldBeActive predicate (the URL can change
while operations are in flight, so eligibility depends on the instant at
which it is evaluated). -/
structure Env where
  dur : Phase → String → Nat
  active : Nat → String → Bool

/-- An opaque lifecycle driver call (toLoadPromise, toBootstrapPromise,
toMountPromise, toUnmountPromise or toUnloadPromise) invoked at time t:
its promise settles after the oracle latency, and it contributes one
observable step. -/
def opEv (env : Env) (p : Phase) (a : String) (t : Nat) : Nat × List Ev :=
  (t + env.dur p a, [Ev.mk t (t + env.dur p a) (EvKind.phase p a)])

/-- tryToBootstrapAndMount of reroute.js, invoked at time t with the
settle time uSettle of the combined unmount/unload promise: when
shouldBeActive holds at t, bootstrap immediately, and once both the
bootstrap promise and the unmount/unload promise have settled re-check
shouldBeActive and mount only when it still holds; when the first check
fails, resolve after the unmount/unload promise without bootstrapping or
mounting. -/
def tryToBootstrapAndMount (env : Env) (a : String) (uSettle t : Nat) :
    Nat × List Ev :=
  if env.active t a then
    let b := opEv env Phase.bootstrap a t
    let t2 := max b.1 uSettle
    if env.active t2 a then
      let m := opEv env Phase.mount a t2
      (m.1, Ev.mk t t (EvKind.check a true) :: b.2
        ++ Ev.mk t2 t2 (EvKind.check a true) :: m.2)
    else
      (t2, Ev.mk t t (EvKind.check a true) :: b.2
        ++ [Ev.mk t2 t2 (EvKind.check a false)])
  else
    (max t uSettle, [Ev.mk t t (EvKind.check a false)])

/-- The per-app chain of the appsToUnmount set: unmount, then, when the
unmount promise settles, unload. -/
def unmountUnload (env : Env) (a : String) (t : Nat) : Nat × List Ev :=
  let u1 := opEv env Phase.unmount a t
  let u2 := opEv env Phase.unload a u1.1
  (u2.1, u1.2 ++ u2.2)

/-- Settle time of a Promise.all over promises settling at the given
times, started at t0 (an empty collection settles at once). -/
def settleAll (t0 : Nat) (ts : List Nat) : Nat := ts.foldl max t0

/-- The four disjoint app sets getAppChanges computes for a cycle. -/
structure Cycle where
  appsToUnload : List String
  appsToUnmount : List String
  appsToLoad : List String
  appsToMount : List String
deriving DecidableEq, Repr

/-- allUnmountPromises of performAppChanges: the unmount-then-unload chains
of appsToUnmount concatenated with the unload promises of appsToUnload,
all started at time t. -/
def allUnmountPs (env : Env) (c : Cycle) (t : Nat) : List (Nat × List Ev) :=
  c.appsToUnmount.map (fun a => unmountUnload env a t)
    ++ c.appsToUnload.map (fun a => opEv env Phase.unload a t)

/-- Settle time of unmountAllPromise, the Promise.all over every
unmount/unload chain of the cycle. -/
def unmountAllSettle (env : Env) (c : Cycle) (t : Nat) : Nat :=
  settleAll t ((allUnmountPs env c t).map (fun q => q.1))

/-- loadThenMountPromises of performAppChanges: each app of appsToLoad is
loaded at once, and when its load resolves tryToBootstrapAndMount runs
with the unmount/unload settle time as its gate. -/
def loadThenMountPs (env : Env) (c : Cycle) (t : Nat) : List (Nat × List Ev) :=
  c.appsToLoad.map (fun a =>
    let l := opEv env Phase.load a t
    let bm := tryToBootstrapAndMount env a (unmountAllSettle env c t) l.1
    (bm.1, l.2 ++ bm.2))

/-- mountPromises of performAppChanges: the apps of appsToMount not also in
appsToLoad run tryToBootstrapAndMount directly, gated on the unmount/unload
settle time. -/
def mountPs (env : Env) (c : Cycle) (t : Nat) : List (Nat × List Ev) :=
  (c.appsToMount.filter (fun a => !(c.appsToLoad.contains a))).map
    (fun a => tryToBootstrapAndMount env a (unmountAllSettle env c t) t)

/-- A single-spa window event dispatch at time t; fireSingleSpaEvent
suppresses every dispatch during silent navigation. -/
def fireEv (silent : Bool) (name : String) (t : Nat) : List Ev :=
  match silent with
  | true => []
  | false => [Ev.mk t t (EvKind.fire name)]

/-- The observable outcome of a cycle: the settle time of
unmountAllPromise, the settle time of the whole cycle, and every
observable step. -/
structure CycleTrace where
  unmountAllSettle : Nat
  settle : Nat
  events : List Ev
deriving Repr

/-- Whether appsThatChanged is empty, selecting the no-app-change flavour
of the notifications. -/
def changedEmpty (c : Cycle) : Bool :=
  c.appsToUnload.isEmpty && c.appsToLoad.isEmpty
    && c.appsToUnmount.isEmpty && c.appsToMount.isEmpty

/-- Settle time of the whole cycle: the Promise.all over the load/mount
promises, which itself waits for unmountAllPromise. -/
def cycleSettle (env : Env) (c : Cycle) (t : Nat) : Nat :=
  settleAll (unmountAllSettle env c t)
    ((loadThenMountPs env c t ++ mountPs env c t).map (fun q => q.1))

/-- The observable outcome of performAppChanges on the path where the
navigation is not canceled and every unmount/unload succeeds. The cycle
fires its before events at t, runs the unmount/unload chains, fires
before-mount-routing-event and releases the captured listeners when
unmountAllPromise settles, runs the load/bootstrap gated mounts, and
fires the app-change (or no-app-change) and routing-event notifications
from finishUpAndReturn when everything settles. -/
def performAppChanges (env : Env) (c : Cycle) (t : Nat) (silent : Bool) :
    CycleTrace :=
  { unmountAllSettle := unmountAllSettle env c t
    settle := cycleSettle env c t
    events :=
      fireEv silent
          (if changedEmpty c then "before-no-app-change" else "before-app-change") t
        ++ fireEv silent "before-routing-event" t
        ++ ((allUnmountPs env c t).map (fun q => q.2)).flatten
        ++ fireEv silent "before-mount-routing-event" (unmountAllSettle env c t)
        ++ [Ev.mk (unmountAllSettle env c t) (unmountAllSettle env c t) EvKind.release]
        ++ ((loadThenMountPs env c t).map (fun q => q.2)).flatten
        ++ ((mountPs env c t).map (fun q => q.2)).flatten
        ++ fireEv silent
            (if changedEmpty c then "no-app-change" else "app-change")
            (cycleSettle env c t)
        ++ fireEv silent "routing-event" (cycleSettle env c t) }

/-- A sample oracle for concrete instances: every lifecycle operation
takes one time unit except unmount, which takes ten, and every app is
always eligible. -/
def envSample : Env :=
  Env.mk
    (fun p _ => match p with
      | Phase.unmount => 10
      | _ => 1)
    (fun _ _ => true)

/-- A sample cycle in which app u unmounts while app a loads, bootstraps
and mounts. -/
def cycleSample : Cycle := Cycle.mk [] ["u"] ["a"] []

end Reroute

/-- The browser navigation surface: the current location and the log of
events dispatched on window. -/
structure NavState where
  windowUrl : String
  dispatched : List String
deriving DecidableEq, Repr

/-- The original window.history.replaceState saved by patchHistoryApi
before patching: it changes the location and dispatches nothing, so no
reroute is triggered by it. -/
def originalReplaceState (w : NavState) (url : String) : NavState :=
  { w with windowUrl := url }

/-- patchedUpdateState of the navigation-events module wrapping
replaceState: it applies the original method, then dispatches an
artificial popstate event (which re-enters reroute through urlReroute)
when urlRerouteOnly is false or the URL changed. -/
def patchedUpdateState (urlRerouteOnly : Bool) (w : NavState) (url : String) :
    NavState :=
  let w1 : NavState := { w with windowUrl := url }
  if !urlRerouteOnly || !(w.windowUrl == url) then
    { w1 with dispatched := w1.dispatched ++ ["popstate"] }
  else w1

/-- How one cancelNavigation input settles: cancelNavigation wraps the
supplied value or promise and interprets a rejection as do-not-cancel
(false) after warning. -/
def settleCancel : Except String Bool → Bool
  | Except.ok b => b
  | Except.error _ => false

/-- The cancellation values a cycle collects: the before-routing-event
dispatch carrying the cancelNavigation capability is suppressed during
silent navigation, so a silent cycle collects none. -/
def cancelValuesCollected (silent : Bool) (inputs : List (Except String Bool)) :
    List Bool :=
  if silent then [] else inputs.map settleCancel

/-- cancelValues.some of performAppChanges: whether any collected value is
truthy. -/
def navigationIsCanceled (vals : List Bool) : Bool := vals.any (fun v => v)

/-- The module-level URL tracking and in-flight flag of reroute.js. -/
structure RerouteGlobals where
  currentUrl : String
  appChangeUnderway : Bool
deriving DecidableEq, Repr

/-- The cancellation check of performAppChanges after all cancel promises
settle: when some collected value is truthy, revert the location to the
pre-cycle URL through the saved original replaceState, update currentUrl
from the reverted location, clear appChangeUnderway, and start one new
cycle with the same pending promises and event arguments and with
silentNavigation set; otherwise change nothing and continue the current
cycle. -/
def cancelCheckStep (silent : Bool) (inputs : List (Except String Bool))
    (g : RerouteGlobals) (w : NavState) (oldUrl : String)
    (pending : List PendingReq) (evArgs : Option EvArgs) :
    RerouteGlobals × NavState × Option CycleStart :=
  if navigationIsCanceled (cancelValuesCollected silent inputs) then
    let w1 := originalReplaceState w oldUrl
    (RerouteGlobals.mk w1.windowUrl false, w1,
      some (CycleStart.mk pending evArgs true))
  else (g, w, none)

namespace Load

/-- App status constants imported by load.js from app.helpers.js. -/
inductive Status where
  | NOT_LOADED
  | LOADING_SOURCE_CODE
  | NOT_BOOTSTRAPPED
  | BOOTSTRAPPING
  | NOT_MOUNTED
  | MOUNTING
  | MOUNTED
  | UNMOUNTING
  | UNLOADING
  | LOAD_ERROR
  | SKIP_BECAUSE_BROKEN
deriving DecidableEq, Repr

/-- A JavaScript value sitting in a lifecycle property of a load result:
a single function, an array whose elements may or may not all be
functions, or some other value. -/
inductive ExportVal where
  | fn
  | fnArray (elemsAreFns : List Bool)
  | other
deriving DecidableEq, Repr

/-- Modelled from the spec: validLifecycleFn of lifecycle.helpers.js is not
under src; per the spec a lifecycle export is valid when it is a single
callable or an ordered sequence of callables. An absent property (none)
is not a valid lifecycle function. -/
def validLifecycleFn : Option ExportVal → Bool
  | some ExportVal.fn => true
  | some (ExportVal.fnArray es) => es.all (fun b => b)
  | some ExportVal.other => false
  | none => false

/-- The value a load operation resolves with: either not an object at all,
or an object whose bootstrap / mount / unmount / unload properties are
each absent (none) or present with the given value. -/
inductive JsExport where
  | nonObject
  | obj (bootstrap mount unmount unload : Option ExportVal)
deriving DecidableEq, Repr

/-- Whether typeof appOpts is an object. -/
def isObject : JsExport → Bool
  | JsExport.obj _ _ _ _ => true
  | JsExport.nonObject => false

/-- Property read appOpts.bootstrap (undefined on a non-object). -/
def getBootstrap : JsExport → Option ExportVal
  | JsExport.obj b _ _ _ => b
  | JsExport.nonObject => none

/-- Property read appOpts.mount. -/
def getMount : JsExport → Option ExportVal
  | JsExport.obj _ m _ _ => m
  | JsExport.nonObject => none

/-- Property read appOpts.unmount. -/
def getUnmount : JsExport → Option ExportVal
  | JsExport.obj _ _ u _ => u
  | JsExport.nonObject => none

/-- The hasOwnProperty check load.js performs for the bootstrap key. -/
def hasBootstrapProp (v : JsExport) : Bool := (getBootstrap v).isSome

/-- Whether the unmount property is present (used only to compare the code
with the wording of the specification; load.js itself never tests this). -/
def hasUnmountProp (v : JsExport) : Bool := (getUnmount v).isSome

/-- The sequence of validationErrCode assignments of load.js lines 96-129,
in program order, a later assignment overwriting an earlier one:
code 34 when the export is not an object, 35 when a bootstrap property is
present but invalid, 36 when mount is invalid (checked unconditionally),
37 when unmount is invalid (checked unconditionally). -/
def validationErrCode (v : JsExport) : Option Nat :=
  let c : Option Nat := none
  let c := if isObject v then c else some 34
  let c := if hasBootstrapProp v && !validLifecycleFn (getBootstrap v) then some 35 else c
  let c := if !validLifecycleFn (getMount v) then some 36 else c
  let c := if !validLifecycleFn (getUnmount v) then some 37 else c
  c

/-- Validation as claim C6 words it: an object exposing a valid mount
function, with bootstrap and unmount validated only when present.
This definition follows the wording of the specification, to be compared
against validationErrCode, which follows the code. -/
def claimValidationOk (v : JsExport) : Bool :=
  isObject v && validLifecycleFn (getMount v)
    && (!hasBootstrapProp v || validLifecycleFn (getBootstrap v))
    && (!hasUnmountProp v || validLifecycleFn (getUnmount v))

/-- The fields of an app record that load.js reads or writes. loadPromise
holds the id of the in-flight load promise while one is stored on the
record; lifecyclesPopulated records that the flattened bootstrap / mount /
unmount / unload functions and validated timeouts were written. -/
structure AppRecord where
  name : String
  status : Status
  loadPromise : Option Nat
  loadErrorTime : Option Nat
  lifecyclesPopulated : Bool
deriving DecidableEq, Repr

/-- How the user-supplied loading function behaves on one invocation:
it may throw synchronously, return a value that is not a promise, return a
promise that rejects, or return a promise resolving with a JsExport. -/
inductive LoadBehavior where
  | throwsSync
  | nonPromise
  | rejects
  | resolves (val : JsExport)
deriving DecidableEq, Repr

/-- The observable outcome of one full toLoadPromise execution: the record
state once the returned promise settles, the settled value of that promise
(ok means resolved), whether this call executed the loading function, and
the id of a pre-existing in-flight promise this call joined, if any. -/
structure LoadOutcome where
  record : AppRecord
  result : Except String AppRecord
  executedLoadFn : Bool
  joined : Option Nat
deriving Repr

/-- Modelled from the spec: handleAppError of app-errors.js is not under
src; per the spec it reports the error and moves the record to the given
status. -/
def handleAppError (r : AppRecord) (newStatus : Status) : AppRecord :=
  { r with status := newStatus }

/-- The catch handler of load.js lines 210-243: delete the stored
loadPromise, then either mark the record broken (user error: the loading
function did not return a promise) or mark it LOAD_ERROR and stamp
loadErrorTime, and resolve with the record. -/
def loadCatch (r : AppRecord) (isUserErr : Bool) (now : Nat) : LoadOutcome :=
  let r1 := { r with loadPromise := none }
  let r2 := if isUserErr then r1 else { r1 with loadErrorTime := some now }
  let r3 := handleAppError r2
    (if isUserErr then Status.SKIP_BECAUSE_BROKEN else Status.LOAD_ERROR)
  { record := r3, result := Except.ok r3, executedLoadFn := true, joined := none }

/-- toLoadPromise of load.js: join a stored in-flight promise if present;
no-op when the status is neither NOT_LOADED nor LOAD_ERROR; otherwise move
to LOADING_SOURCE_CODE, store a fresh loadPromise, run the loading
function (behaviour beh), validate a resolved export, and settle as the
code does on each path. now is the clock value Date.now would return when
a failure is stamped; freshId identifies the promise stored on the
record. -/
def toLoadPromise (r : AppRecord) (beh : LoadBehavior) (now freshId : Nat) :
    LoadOutcome :=
  match r.loadPromise with
  | some p =>
    { record := r, result := Except.ok r, executedLoadFn := false, joined := some p }
  | none =>
    if r.status ≠ Status.NOT_LOADED ∧ r.status ≠ Status.LOAD_ERROR then
      { record := r, result := Except.ok r, executedLoadFn := false, joined := none }
    else
      let r1 : AppRecord :=
        { r with status := Status.LOADING_SOURCE_CODE, loadPromise := some freshId }
      match beh with
      | LoadBehavior.throwsSync => loadCatch r1 false now
      | LoadBehavior.nonPromise => loadCatch r1 true now
      | LoadBehavior.rejects => loadCatch r1 false now
      | LoadBehavior.resolves v =>
        let r2 := { r1 with loadErrorTime := none }
        match validationErrCode v with
        | some _ =>
          let r3 := handleAppError r2 Status.SKIP_BECAUSE_BROKEN
          { record := r3, result := Except.ok r3, executedLoadFn := true, joined := none }
        | none =>
          let r3 : AppRecord :=
            { r2 with status := Status.NOT_BOOTSTRAPPED,
                      lifecyclesPopulated := true, loadPromise := none }
          { record := r3, result := Except.ok r3, executedLoadFn := true, joined := none }

/-- The synchronous body of one toLoadPromise call, as far as other
concurrent callers can observe it before the load settles: returns the
record after the body runs, the id of the in-flight promise the caller
received (none on the idempotent no-op path, which resolves with the
record directly), and whether this call triggered an execution of the
loading function. -/
def toLoadPromiseEntry (r : AppRecord) (freshId : Nat) :
    AppRecord × Option Nat × Bool :=
  match r.loadPromise with
  | some p => (r, some p, false)
  | none =>
    if r.status ≠ Status.NOT_LOADED ∧ r.status ≠ Status.LOAD_ERROR then
      (r, none, false)
    else
      ({ r with status := Status.LOADING_SOURCE_CODE, loadPromise := some freshId },
        some freshId, true)

/-- N concurrent toLoadPromise calls arriving before the load settles,
in arrival order, each given its own fresh promise id: returns the final
record, the promise id each caller received, and how many of the calls
executed the loading function. -/
def concurrentEntries (r : AppRecord) (ids : List Nat) :
    AppRecord × List (Option Nat) × Nat :=
  match ids with
  | [] => (r, [], 0)
  | i :: rest =>
    let s := toLoadPromiseEntry r i
    let t := concurrentEntries s.1 rest
    (t.1, s.2.1 :: t.2.1, (if s.2.2 then 1 else 0) + t.2.2)

end Load

end SingleSpa

namespace SingleSpa.Reroute

/-- The start of a Promise.all is a lower bound of its settle time. -/
theorem le_settleAll_init (t0 : Nat) (ts : List Nat) : t0 ≤ settleAll t0 ts := by
  induction ts generalizing t0 with
  | nil => exact Nat.le_refl t0
  | cons x xs ih =>
    exact Nat.le_trans (Nat.le_max_left t0 x) (ih (max t0 x))

/-- Every constituent settle time is a lower bound of the settle time of
the Promise.all over them. -/
theorem le_settleAll_mem (t0 : Nat) (ts : List Nat) (x : Nat) (hx : x ∈ ts) :
    x ≤ settleAll t0 ts := by
  induction ts generalizing t0 with
  | nil => cases hx
  | cons y ys ih =>
    rcases List.mem_cons.mp hx with rfl | h
    · exact Nat.le_trans (Nat.le_max_right t0 x) (le_settleAll_init (max t0 x) ys)
    · exact ih (max t0 y) h

/-- Every step of an unmount/unload chain finishes no later than the chain
settles, and all its steps are unmount or unload operations on the chained
app. -/
theorem unmountUnload_events (env : Env) (a : String) (t : Nat) :
    ∀ e ∈ (unmountUnload env a t).2,
      (e.kind = EvKind.phase Phase.unmount a ∨ e.kind = EvKind.phase Phase.unload a)
      ∧ e.finish ≤ (unmountUnload env a t).1 := by
  intro e he
  simp only [unmountUnload, opEv, List.cons_append, List.nil_append] at he
  rcases List.mem_cons.mp he with rfl | he2
  · exact ⟨Or.inl rfl, Nat.le_add_right _ _⟩
  · rcases List.mem_singleton.mp he2 with rfl
    exact ⟨Or.inr rfl, Nat.le_refl _⟩

/-- Every operation of the combined unmount/unload collection is an
unmount or an unload, and it finishes no later than its promise
settles. -/
theorem allUnmountPs_events (env : Env) (c : Cycle) (t : Nat) :
    ∀ q ∈ allUnmountPs env c t, ∀ e ∈ q.2,
      (∃ b, e.kind = EvKind.phase Phase.unmount b ∨ e.kind = EvKind.phase Phase.unload b)
      ∧ e.finish ≤ q.1 := by
  intro q hq
  simp only [allUnmountPs, List.mem_append, List.mem_map] at hq
  rcases hq with ⟨a, _, rfl⟩ | ⟨a, _, rfl⟩
  · intro e he
    rcases unmountUnload_events env a t e he with ⟨hk, hf⟩
    exact ⟨⟨a, hk⟩, hf⟩
  · intro e he
    simp only [opEv, List.mem_singleton] at he
    subst he
    exact ⟨⟨a, Or.inr rfl⟩, Nat.le_refl _⟩

/-- Every unmount or unload operation of the cycle finishes no later than
unmountAllPromise settles. -/
theorem allUnmountPs_finish_le (env : Env) (c : Cycle) (t : Nat) :
    ∀ q ∈ allUnmountPs env c t, ∀ e ∈ q.2,
      e.finish ≤ unmountAllSettle env c t := by
  intro q hq e he
  have h1 := (allUnmountPs_events env c t q hq e he).2
  have h2 : q.1 ∈ (allUnmountPs env c t).map (fun q => q.1) :=
    List.mem_map.mpr ⟨q, hq, rfl⟩
  exact Nat.le_trans h1 (le_settleAll_mem t _ q.1 h2)

/-- Classification of the steps of tryToBootstrapAndMount: each is an
eligibility check of the app, the bootstrap operation started at the
invocation instant, or the mount operation, which starts no earlier than
the unmount/unload settle gate, only when the app is still eligible at
that instant, with the successful re-check recorded at the same
instant. -/
theorem ttbam_events (env : Env) (a : String) (u t : Nat) :
    ∀ e ∈ (tryToBootstrapAndMount env a u t).2,
      (∃ r, e.kind = EvKind.check a r)
      ∨ (e.kind = EvKind.phase Phase.bootstrap a ∧ e.start = t)
      ∨ (e.kind = EvKind.phase Phase.mount a ∧ u ≤ e.start ∧ t ≤ e.start
          ∧ env.active e.start a = true
          ∧ Ev.mk e.start e.start (EvKind.check a true)
              ∈ (tryToBootstrapAndMount env a u t).2) := by
  intro e he
  by_cases h1 : env.active t a = true
  · by_cases h2 : env.active (max (t + env.dur Phase.bootstrap a) u) a = true
    · have htr : (tryToBootstrapAndMount env a u t).2
          = [Ev.mk t t (EvKind.check a true),
              Ev.mk t (t + env.dur Phase.bootstrap a) (EvKind.phase Phase.bootstrap a),
              Ev.mk (max (t + env.dur Phase.bootstrap a) u)
                (max (t + env.dur Phase.bootstrap a) u) (EvKind.check a true),
              Ev.mk (max (t + env.dur Phase.bootstrap a) u)
                (max (t + env.dur Phase.bootstrap a) u
                  + env.dur Phase.mount a) (EvKind.phase Phase.mount a)] := by
        simp [tryToBootstrapAndMount, opEv, h1, h2]
      rw [htr] at he ⊢
      simp only [List.mem_cons, List.not_mem_nil, or_false] at he
      rcases he with he | he | he | he
      · subst he
        exact Or.inl ⟨true, rfl⟩
      · subst he
        exact Or.inr (Or.inl ⟨rfl, rfl⟩)
      · subst he
        exact Or.inl ⟨true, rfl⟩
      · subst he
        refine Or.inr (Or.inr ⟨rfl, Nat.le_max_right _ _,
          Nat.le_trans (Nat.le_add_right t _) (Nat.le_max_left _ _), h2, ?_⟩)
        simp
    · have htr : (tryToBootstrapAndMount env a u t).2
          = [Ev.mk t t (EvKind.check a true),
              Ev.mk t (t + env.dur Phase.bootstrap a) (EvKind.phase Phase.bootstrap a),
              Ev.mk (max (t + env.dur Phase.bootstrap a) u)
                (max (t + env.dur Phase.bootstrap a) u) (EvKind.check a false)] := by
        simp [tryToBootstrapAndMount, opEv, h1, h2]
      rw [htr] at he
      simp only [List.mem_cons, List.not_mem_nil, or_false] at he
      rcases he with he | he | he
      · subst he
        exact Or.inl ⟨true, rfl⟩
      · subst he
        exact Or.inr (Or.inl ⟨rfl, rfl⟩)
      · subst he
        exact Or.inl ⟨false, rfl⟩
  · have htr : (tryToBootstrapAndMount env a u t).2
        = [Ev.mk t t (EvKind.check a false)] := by
      simp [tryToBootstrapAndMount, h1]
    rw [htr] at he
    simp only [List.mem_singleton] at he
    subst he
    exact Or.inl ⟨false, rfl⟩

/-- An element of a suppressed-or-singleton dispatch list is the dispatch
itself. -/
theorem mem_fireEv (s : Bool) (n : String) (t : Nat) (e : Ev)
    (he : e ∈ fireEv s n t) : e = Ev.mk t t (EvKind.fire n) := by
  cases s
  · simpa [fireEv] using he
  · simp [fireEv] at he

/-- The per-app promise collections of appsToLoad consist of the load
operation followed by the steps of tryToBootstrapAndMount invoked when the
load resolves, gated on the unmount/unload settle time. -/
theorem loadThenMountPs_shape (env : Env) (c : Cycle) (t : Nat) :
    ∀ q ∈ loadThenMountPs env c t, ∃ a,
      q.2 = Ev.mk t (t + env.dur Phase.load a) (EvKind.phase Phase.load a)
          :: (tryToBootstrapAndMount env a (unmountAllSettle env c t)
              (t + env.dur Phase.load a)).2 := by
  intro q hq
  simp only [loadThenMountPs, List.mem_map] at hq
  obtain ⟨a, _, rfl⟩ := hq
  exact ⟨a, by simp [opEv]⟩

/-- The per-app promise collections of appsToMount are exactly the steps
of tryToBootstrapAndMount invoked at the start of the phase, gated on the
unmount/unload settle time. -/
theorem mountPs_shape (env : Env) (c : Cycle) (t : Nat) :
    ∀ q ∈ mountPs env c t, ∃ a,
      q.2 = (tryToBootstrapAndMount env a (unmountAllSettle env c t) t).2 := by
  intro q hq
  simp only [mountPs, List.mem_map] at hq
  obtain ⟨a, _, rfl⟩ := hq
  exact ⟨a, rfl⟩

/-- Every observable step of a cycle is a notification dispatch, the
single release point, or a step of one of the three phase collections. -/
theorem performAppChanges_events_split (env : Env) (c : Cycle) (t : Nat)
    (silent : Bool) (e : Ev)
    (he : e ∈ (performAppChanges env c t silent).events) :
    (∃ n tf, e = Ev.mk tf tf (EvKind.fire n))
    ∨ e = Ev.mk (unmountAllSettle env c t) (unmountAllSettle env c t) EvKind.release
    ∨ (∃ q, q ∈ allUnmountPs env c t ∧ e ∈ q.2)
    ∨ (∃ q, q ∈ loadThenMountPs env c t ∧ e ∈ q.2)
    ∨ (∃ q, q ∈ mountPs env c t ∧ e ∈ q.2) := by
  simp only [performAppChanges, List.mem_append, List.mem_singleton] at he
  rcases he with ((((((((h | h) | h) | h) | h) | h) | h) | h) | h)
  · obtain rfl := mem_fireEv _ _ _ _ h
    exact Or.inl ⟨_, _, rfl⟩
  · obtain rfl := mem_fireEv _ _ _ _ h
    exact Or.inl ⟨_, _, rfl⟩
  · obtain ⟨l, hl, hel⟩ := List.mem_flatten.mp h
    obtain ⟨q, hq, rfl⟩ := List.mem_map.mp hl
    exact Or.inr (Or.inr (Or.inl ⟨q, hq, hel⟩))
  · obtain rfl := mem_fireEv _ _ _ _ h
    exact Or.inl ⟨_, _, rfl⟩
  · exact Or.inr (Or.inl h)
  · obtain ⟨l, hl, hel⟩ := List.mem_flatten.mp h
    obtain ⟨q, hq, rfl⟩ := List.mem_map.mp hl
    exact Or.inr (Or.inr (Or.inr (Or.inl ⟨q, hq, hel⟩)))
  · obtain ⟨l, hl, hel⟩ := List.mem_flatten.mp h
    obtain ⟨q, hq, rfl⟩ := List.mem_map.mp hl
    exact Or.inr (Or.inr (Or.inr (Or.inr ⟨q, hq, hel⟩)))
  · obtain rfl := mem_fireEv _ _ _ _ h
    exact Or.inl ⟨_, _, rfl⟩
  · obtain rfl := mem_fireEv _ _ _ _ h
    exact Or.inl ⟨_, _, rfl⟩

/-- Steps of the load-then-mount collections are steps of the cycle. -/
theorem mem_events_of_mem_loadThenMount (env : Env) (c : Cycle) (t : Nat)
    (silent : Bool) (q : Nat × List Ev) (hq : q ∈ loadThenMountPs env c t)
    (x : Ev) (hx : x ∈ q.2) :
    x ∈ (performAppChanges env c t silent).events := by
  have hmem : x ∈ ((loadThenMountPs env c t).map (fun q => q.2)).flatten :=
    List.mem_flatten.mpr ⟨q.2, List.mem_map.mpr ⟨q, hq, rfl⟩, hx⟩
  simp only [performAppChanges, List.mem_append]
  tauto

/-- Steps of the plain mount collections are steps of the cycle. -/
theorem mem_events_of_mem_mountPs (env : Env) (c : Cycle) (t : Nat)
    (silent : Bool) (q : Nat × List Ev) (hq : q ∈ mountPs env c t)
    (x : Ev) (hx : x ∈ q.2) :
    x ∈ (performAppChanges env c t silent).events := by
  have hmem : x ∈ ((mountPs env c t).map (fun q => q.2)).flatten :=
    List.mem_flatten.mpr ⟨q.2, List.mem_map.mpr ⟨q, hq, rfl⟩, hx⟩
  simp only [performAppChanges, List.mem_append]
  tauto

/-- C1: in a started-mode cycle, every mount operation starts no earlier
than unmountAllPromise settles, hence after every unmount and unload
operation of the cycle has finished; the app is still eligible at the
instant the mount starts, and the successful re-check is recorded at that
same instant, so an app that is no longer eligible at the gate is not
mounted. -/
theorem performAppChanges_mount_gate (env : Env) (c : Cycle) (t : Nat)
    (silent : Bool) :
    ∀ e ∈ (performAppChanges env c t silent).events, ∀ a,
      e.kind = EvKind.phase Phase.mount a →
      unmountAllSettle env c t ≤ e.start
      ∧ env.active e.start a = true
      ∧ Ev.mk e.start e.start (EvKind.check a true)
          ∈ (performAppChanges env c t silent).events
      ∧ ∀ u ∈ (performAppChanges env c t silent).events, ∀ p b,
          u.kind = EvKind.phase p b → (p = Phase.unmount ∨ p = Phase.unload) →
          u.finish ≤ e.start := by
  intro e he a hka
  have hub : ∀ u ∈ (performAppChanges env c t silent).events, ∀ p b,
      u.kind = EvKind.phase p b → (p = Phase.unmount ∨ p = Phase.unload) →
      u.finish ≤ unmountAllSettle env c t := by
    intro u hu p b hk hp
    rcases performAppChanges_events_split env c t silent u hu with
      hsp | hsp | hsp | hsp | hsp
    · obtain ⟨n, tf, rfl⟩ := hsp
      simp at hk
    · subst hsp
      simp at hk
    · obtain ⟨q, hq, hqe⟩ := hsp
      exact allUnmountPs_finish_le env c t q hq u hqe
    · obtain ⟨q, hq, hqe⟩ := hsp
      obtain ⟨b2, hsh⟩ := loadThenMountPs_shape env c t q hq
      rw [hsh] at hqe
      rcases List.mem_cons.mp hqe with rfl | hqe2
      · rcases hp with rfl | rfl <;> simp at hk
      · rcases ttbam_events env b2 (unmountAllSettle env c t)
            (t + env.dur Phase.load b2) u hqe2 with
          ⟨r, hk2⟩ | ⟨hk2, _⟩ | ⟨hk2, _⟩ <;> rw [hk2] at hk <;>
          rcases hp with rfl | rfl <;> simp at hk
    · obtain ⟨q, hq, hqe⟩ := hsp
      obtain ⟨b2, hsh⟩ := mountPs_shape env c t q hq
      rw [hsh] at hqe
      rcases ttbam_events env b2 (unmountAllSettle env c t) t u hqe with
        ⟨r, hk2⟩ | ⟨hk2, _⟩ | ⟨hk2, _⟩ <;> rw [hk2] at hk <;>
        rcases hp with rfl | rfl <;> simp at hk
  have hmain : unmountAllSettle env c t ≤ e.start
      ∧ env.active e.start a = true
      ∧ Ev.mk e.start e.start (EvKind.check a true)
          ∈ (performAppChanges env c t silent).events := by
    rcases performAppChanges_events_split env c t silent e he with
      hsp | hsp | hsp | hsp | hsp
    · obtain ⟨n, tf, rfl⟩ := hsp
      simp at hka
    · subst hsp
      simp at hka
    · obtain ⟨q, hq, hqe⟩ := hsp
      obtain ⟨⟨b2, hk2⟩, -⟩ := allUnmountPs_events env c t q hq e hqe
      rcases hk2 with hk2 | hk2 <;> rw [hk2] at hka <;> simp at hka
    · obtain ⟨q, hq, hqe⟩ := hsp
      obtain ⟨b2, hsh⟩ := loadThenMountPs_shape env c t q hq
      rw [hsh] at hqe
      rcases List.mem_cons.mp hqe with rfl | hqe2
      · simp at hka
      · rcases ttbam_events env b2 (unmountAllSettle env c t)
            (t + env.dur Phase.load b2) e hqe2 with
          ⟨r, hk2⟩ | ⟨hk2, _⟩ | ⟨hk2, hge, _, hact, hchk⟩
        · rw [hk2] at hka
          simp at hka
        · rw [hk2] at hka
          simp at hka
        · rw [hk2] at hka
          simp only [EvKind.phase.injEq, true_and] at hka
          subst hka
          refine ⟨hge, hact, ?_⟩
          refine mem_events_of_mem_loadThenMount env c t silent q hq _ ?_
          rw [hsh]
          exact List.mem_cons_of_mem _ hchk
    · obtain ⟨q, hq, hqe⟩ := hsp
      obtain ⟨b2, hsh⟩ := mountPs_shape env c t q hq
      rw [hsh] at hqe
      rcases ttbam_events env b2 (unmountAllSettle env c t) t e hqe with
        ⟨r, hk2⟩ | ⟨hk2, _⟩ | ⟨hk2, hge, _, hact, hchk⟩
      · rw [hk2] at hka
        simp at hka
      · rw [hk2] at hka
        simp at hka
      · rw [hk2] at hka
        simp only [EvKind.phase.injEq, true_and] at hka
        subst hka
        refine ⟨hge, hact, ?_⟩
        refine mem_events_of_mem_mountPs env c t silent q hq _ ?_
        rw [hsh]
        exact hchk
  exact ⟨hmain.1, hmain.2.1, hmain.2.2, fun u hu p b hk hp =>
    Nat.le_trans (hub u hu p b hk hp) hmain.1⟩

/-- Witness for the mount-gate theorem: in the sample cycle the mount of
app a starts at instant 11, the settle instant of the unmount/unload
phase, and the app is eligible there. -/
theorem performAppChanges_mount_gate_witness :
    unmountAllSettle envSample cycleSample 0 ≤ 11
    ∧ envSample.active 11 "a" = true :=
  ⟨(performAppChanges_mount_gate envSample cycleSample 0 false
        (Ev.mk 11 12 (EvKind.phase Phase.mount "a")) (by decide) "a" rfl).1,
    (performAppChanges_mount_gate envSample cycleSample 0 false
        (Ev.mk 11 12 (EvKind.phase Phase.mount "a")) (by decide) "a" rfl).2.1⟩

/-- C3 counterexample: in the sample cycle the bootstrap of app a, an app
of the apps-to-load set, is invoked at instant 1, strictly before the
combined unmount/unload promise settles at instant 11. -/
theorem bootstrap_before_unmount_settles :
    "a" ∈ cycleSample.appsToLoad
    ∧ Ev.mk 1 2 (EvKind.phase Phase.bootstrap "a")
        ∈ (performAppChanges envSample cycleSample 0 false).events
    ∧ unmountAllSettle envSample cycleSample 0 = 11
    ∧ (1 : Nat) < 11 := by
  refine ⟨by decide, by decide, by decide, by decide⟩

/-- C3 amended: in tryToBootstrapAndMount the mount and the eligibility
re-check that guards it wait for the unmount/unload settle gate, while the
bootstrap starts at the invocation instant, which for an app being loaded
is the instant its load resolves, possibly before the gate. -/
theorem ttbam_mount_gated_bootstrap_immediate (env : Env) (a : String)
    (u t : Nat) :
    (∀ e ∈ (tryToBootstrapAndMount env a u t).2, ∀ b,
        e.kind = EvKind.phase Phase.mount b →
        u ≤ e.start ∧ env.active e.start b = true
          ∧ Ev.mk e.start e.start (EvKind.check b true)
              ∈ (tryToBootstrapAndMount env a u t).2)
    ∧ (∀ e ∈ (tryToBootstrapAndMount env a u t).2, ∀ b,
        e.kind = EvKind.phase Phase.bootstrap b → e.start = t) := by
  constructor
  · intro e he b hk
    rcases ttbam_events env a u t e he with
      ⟨r, hk2⟩ | ⟨hk2, _⟩ | ⟨hk2, hge, _, hact, hchk⟩
    · rw [hk2] at hk
      simp at hk
    · rw [hk2] at hk
      simp at hk
    · rw [hk2] at hk
      simp only [EvKind.phase.injEq, true_and] at hk
      subst hk
      exact ⟨hge, hact, hchk⟩
  · intro e he b hk
    rcases ttbam_events env a u t e he with
      ⟨r, hk2⟩ | ⟨hk2, hst⟩ | ⟨hk2, _⟩
    · rw [hk2] at hk
      simp at hk
    · exact hst
    · rw [hk2] at hk
      simp at hk

/-- Witness for the amended bootstrap/mount theorem: the mount of the
sample app under a gate settling at instant 5 starts exactly at instant 5
with the app eligible there. -/
theorem ttbam_mount_gated_witness :
    (5 : Nat) ≤ 5 ∧ envSample.active 5 "a" = true :=
  ⟨((ttbam_mount_gated_bootstrap_immediate envSample "a" 5 0).1
      (Ev.mk 5 6 (EvKind.phase Phase.mount "a")) (by decide) "a" rfl).1,
    ((ttbam_mount_gated_bootstrap_immediate envSample "a" 5 0).1
      (Ev.mk 5 6 (EvKind.phase Phase.mount "a")) (by decide) "a" rfl).2.1⟩

/-- No step of tryToBootstrapAndMount is a release point. -/
theorem ttbam_not_release (env : Env) (a : String) (u t : Nat) :
    ∀ e ∈ (tryToBootstrapAndMount env a u t).2, e.kind ≠ EvKind.release := by
  intro e he hrel
  rcases ttbam_events env a u t e he with
    ⟨r, hk⟩ | ⟨hk, _⟩ | ⟨hk, _⟩ <;> rw [hk] at hrel <;> simp at hrel

/-- Filtering for release points removes every list of steps that are not
release points. -/
theorem filter_release_eq_nil (l : List Ev)
    (hl : ∀ x ∈ l, x.kind ≠ EvKind.release) :
    l.filter (fun e => e.kind == EvKind.release) = [] := by
  induction l with
  | nil => rfl
  | cons x xs ih =>
    rw [List.filter_cons, if_neg (by
      simp only [beq_iff_eq]
      simpa using hl x (List.mem_cons_self x xs))]
    exact ih (fun y hy => hl y (List.mem_cons_of_mem x hy))

/-- A cycle has exactly one release point, at the instant
unmountAllPromise settles. -/
theorem performAppChanges_release_points (env : Env) (c : Cycle) (t : Nat)
    (silent : Bool) :
    ((performAppChanges env c t silent).events.filter
        (fun e => e.kind == EvKind.release)).map (fun e => e.start)
      = [unmountAllSettle env c t] := by
  have hf : ∀ (s : Bool) (n : String) (tt : Nat),
      (fireEv s n tt).filter (fun e => e.kind == EvKind.release) = [] := by
    intro s n tt
    apply filter_release_eq_nil
    intro x hx
    rw [mem_fireEv s n tt x hx]
    simp
  have hU : (((allUnmountPs env c t).map (fun q => q.2)).flatten).filter
      (fun e => e.kind == EvKind.release) = [] := by
    apply filter_release_eq_nil
    intro x hx
    obtain ⟨l, hl, hxl⟩ := List.mem_flatten.mp hx
    obtain ⟨q, hq, rfl⟩ := List.mem_map.mp hl
    obtain ⟨⟨b, hk⟩, -⟩ := allUnmountPs_events env c t q hq x hxl
    rcases hk with hk | hk <;> rw [hk] <;> simp
  have hL : (((loadThenMountPs env c t).map (fun q => q.2)).flatten).filter
      (fun e => e.kind == EvKind.release) = [] := by
    apply filter_release_eq_nil
    intro x hx
    obtain ⟨l, hl, hxl⟩ := List.mem_flatten.mp hx
    obtain ⟨q, hq, rfl⟩ := List.mem_map.mp hl
    obtain ⟨b, hsh⟩ := loadThenMountPs_shape env c t q hq
    rw [hsh] at hxl
    rcases List.mem_cons.mp hxl with rfl | hxl2
    · simp
    · exact ttbam_not_release env b (unmountAllSettle env c t)
        (t + env.dur Phase.load b) x hxl2
  have hM : (((mountPs env c t).map (fun q => q.2)).flatten).filter
      (fun e => e.kind == EvKind.release) = [] := by
    apply filter_release_eq_nil
    intro x hx
    obtain ⟨l, hl, hxl⟩ := List.mem_flatten.mp hx
    obtain ⟨q, hq, rfl⟩ := List.mem_map.mp hl
    obtain ⟨b, hsh⟩ := mountPs_shape env c t q hq
    rw [hsh] at hxl
    exact ttbam_not_release env b (unmountAllSettle env c t) t x hxl
  simp only [performAppChanges, List.filter_append, hf, hU, hL, hM,
    List.nil_append, List.append_nil]
  simp

/-- No step of tryToBootstrapAndMount is a notification dispatch. -/
theorem ttbam_not_fire (env : Env) (a : String) (u t : Nat) :
    ∀ e ∈ (tryToBootstrapAndMount env a u t).2, ∀ n, e.kind ≠ EvKind.fire n := by
  intro e he n hf
  rcases ttbam_events env a u t e he with
    ⟨r, hk⟩ | ⟨hk, _⟩ | ⟨hk, _⟩ <;> rw [hk] at hf <;> simp at hf

/-- Filtering for notification dispatches removes every list of steps
that contains none. -/
theorem filter_fire_eq_nil (l : List Ev)
    (hl : ∀ x ∈ l, ∀ n, x.kind ≠ EvKind.fire n) :
    l.filter
        (fun e => match e.kind with | EvKind.fire _ => true | _ => false)
      = [] := by
  induction l with
  | nil => rfl
  | cons x xs ih =>
    rw [List.filter_cons, if_neg ?_]
    · exact ih (fun y hy => hl y (List.mem_cons_of_mem x hy))
    · intro hcond
      cases hk : x.kind with
      | fire n => exact hl x (List.mem_cons_self x xs) n hk
      | phase p b =>
        rw [hk] at hcond
        simp at hcond
      | check b r =>
        rw [hk] at hcond
        simp at hcond
      | release =>
        rw [hk] at hcond
        simp at hcond

/-- A silent cycle dispatches no single-spa notification at all: every
fireSingleSpaEvent call is suppressed and no other step is a dispatch. -/
theorem performAppChanges_silent_no_fire (env : Env) (c : Cycle) (t : Nat) :
    (performAppChanges env c t true).events.filter
        (fun e => match e.kind with | EvKind.fire _ => true | _ => false)
      = [] := by
  apply filter_fire_eq_nil
  intro x hx n hk
  simp only [performAppChanges, fireEv, List.nil_append, List.append_nil,
    List.mem_append, List.mem_singleton] at hx
  rcases hx with ((hx | hx) | hx) | hx
  · obtain ⟨l, hl, hxl⟩ := List.mem_flatten.mp hx
    obtain ⟨q, hq, rfl⟩ := List.mem_map.mp hl
    obtain ⟨⟨b, hk2⟩, -⟩ := allUnmountPs_events env c t q hq x hxl
    rcases hk2 with hk2 | hk2 <;> rw [hk2] at hk <;> simp at hk
  · rw [hx] at hk
    simp at hk
  · obtain ⟨l, hl, hxl⟩ := List.mem_flatten.mp hx
    obtain ⟨q, hq, rfl⟩ := List.mem_map.mp hl
    obtain ⟨b, hsh⟩ := loadThenMountPs_shape env c t q hq
    rw [hsh] at hxl
    rcases List.mem_cons.mp hxl with hx2 | hx2
    · rw [hx2] at hk
      simp at hk
    · exact ttbam_not_fire env b (unmountAllSettle env c t)
        (t + env.dur Phase.load b) x hx2 n hk
  · obtain ⟨l, hl, hxl⟩ := List.mem_flatten.mp hx
    obtain ⟨q, hq, rfl⟩ := List.mem_map.mp hl
    obtain ⟨b, hsh⟩ := mountPs_shape env c t q hq
    rw [hsh] at hxl
    exact ttbam_not_fire env b (unmountAllSettle env c t) t x hxl n hk

end SingleSpa.Reroute

namespace SingleSpa.Load

/-- While a load promise is stored on the record, every further
toLoadPromise body joins it: the record is unchanged, every caller
receives the stored promise, and the loading function never runs. -/
theorem concurrentEntries_inflight (r : AppRecord) (p : Nat)
    (hp : r.loadPromise = some p) (ids : List Nat) :
    (concurrentEntries r ids).1 = r
      ∧ (∀ j ∈ (concurrentEntries r ids).2.1, j = some p)
      ∧ (concurrentEntries r ids).2.2 = 0 := by
  induction ids with
  | nil => simp [concurrentEntries]
  | cons i rest ih =>
    simp only [concurrentEntries, toLoadPromiseEntry, hp]
    refine ⟨ih.1, ?_, ?_⟩
    · intro j hj
      rcases List.mem_cons.mp hj with h | h
      · exact h
      · exact ih.2.1 j h
    · simpa using ih.2.2

/-- C8: concurrent toLoadPromise calls on one record are deduplicated:
when the record is loadable (NOT_LOADED or LOAD_ERROR, nothing in
flight), a batch of concurrent calls executes the loading function exactly
once and every caller receives the promise created by the first call; and
a call on a record in any other status with nothing in flight is an
idempotent no-op resolving with the unchanged record. -/
theorem toLoadPromise_dedup_and_noop (r : AppRecord) (i0 : Nat) (ids : List Nat)
    (hp : r.loadPromise = none)
    (hs : r.status = Status.NOT_LOADED ∨ r.status = Status.LOAD_ERROR) :
    ((concurrentEntries r (i0 :: ids)).2.2 = 1
      ∧ ∀ j ∈ (concurrentEntries r (i0 :: ids)).2.1, j = some i0)
    ∧ (∀ r2 : AppRecord, r2.loadPromise = none →
        r2.status ≠ Status.NOT_LOADED → r2.status ≠ Status.LOAD_ERROR →
        ∀ beh now freshId,
          toLoadPromise r2 beh now freshId
            = { record := r2, result := Except.ok r2,
                executedLoadFn := false, joined := none }) := by
  constructor
  · have hstep : toLoadPromiseEntry r i0
        = ({ r with status := Status.LOADING_SOURCE_CODE, loadPromise := some i0 },
            some i0, true) := by
      rcases hs with h | h <;> simp [toLoadPromiseEntry, hp, h]
    have hrest := concurrentEntries_inflight
      { r with status := Status.LOADING_SOURCE_CODE, loadPromise := some i0 }
      i0 rfl ids
    constructor
    · simp only [concurrentEntries, hstep]
      simpa using hrest.2.2
    · intro j hj
      simp only [concurrentEntries, hstep] at hj
      rcases List.mem_cons.mp hj with h | h
      · exact h
      · exact hrest.2.1 j h
  · intro r2 hp2 h1 h2 beh now freshId
    simp [toLoadPromise, hp2, h1, h2]

/-- Witness for the deduplication theorem at a concrete loadable record
and three concurrent calls. -/
theorem toLoadPromise_dedup_and_noop_witness :
    (concurrentEntries (AppRecord.mk "a" Status.NOT_LOADED none none false)
        [10, 11, 12]).2.2 = 1 :=
  (toLoadPromise_dedup_and_noop (AppRecord.mk "a" Status.NOT_LOADED none none false)
    10 [11, 12] rfl (Or.inl rfl)).1.1

/-- C7: on a loadable record, a loading function whose promise rejects
leaves the record in LOAD_ERROR with the failure instant stored in
loadErrorTime and the in-flight field cleared, so a later call executes
the loading function again; a loading function that does not return a
promise leaves the record in SKIP_BECAUSE_BROKEN and stores no failure
instant (loadErrorTime is untouched). -/
theorem toLoadPromise_load_error_vs_broken (r : AppRecord) (now freshId : Nat)
    (hp : r.loadPromise = none)
    (hs : r.status = Status.NOT_LOADED ∨ r.status = Status.LOAD_ERROR) :
    ((toLoadPromise r LoadBehavior.rejects now freshId).record.status = Status.LOAD_ERROR
      ∧ (toLoadPromise r LoadBehavior.rejects now freshId).record.loadErrorTime = some now
      ∧ (toLoadPromise r LoadBehavior.rejects now freshId).record.loadPromise = none
      ∧ ∀ beh n i,
          (toLoadPromise (toLoadPromise r LoadBehavior.rejects now freshId).record
            beh n i).executedLoadFn = true)
    ∧ ((toLoadPromise r LoadBehavior.nonPromise now freshId).record.status
          = Status.SKIP_BECAUSE_BROKEN
      ∧ (toLoadPromise r LoadBehavior.nonPromise now freshId).record.loadErrorTime
          = r.loadErrorTime) := by
  have hrej : (toLoadPromise r LoadBehavior.rejects now freshId).record
      = { r with status := Status.LOAD_ERROR, loadPromise := none, loadErrorTime := some now } := by
    rcases hs with h | h <;> simp [toLoadPromise, loadCatch, handleAppError, hp, h]
  refine ⟨⟨?_, ?_, ?_, ?_⟩, ?_, ?_⟩
  · rw [hrej]
  · rw [hrej]
  · rw [hrej]
  · intro beh n i
    rw [hrej]
    cases beh
    case resolves v =>
      cases h : validationErrCode v <;>
        simp [toLoadPromise, loadCatch, handleAppError, h]
    all_goals simp [toLoadPromise, loadCatch, handleAppError]
  · rcases hs with h | h <;> simp [toLoadPromise, loadCatch, handleAppError, hp, h]
  · rcases hs with h | h <;> simp [toLoadPromise, loadCatch, handleAppError, hp, h]

/-- Witness for the load-error theorem at a concrete record. -/
theorem toLoadPromise_load_error_vs_broken_witness :
    (toLoadPromise (AppRecord.mk "a" Status.NOT_LOADED none none false)
        LoadBehavior.rejects 5 1).record.status = Status.LOAD_ERROR :=
  (toLoadPromise_load_error_vs_broken
    (AppRecord.mk "a" Status.NOT_LOADED none none false) 5 1 rfl (Or.inl rfl)).1.1

/-- C6 counterexample: a load result exposing a valid mount function but no
unmount property passes the validation the claim describes (bootstrap and
unmount checked only when present), yet load.js validates unmount
unconditionally and marks the record SKIP_BECAUSE_BROKEN. -/
theorem validation_requires_unmount_counterexample :
    claimValidationOk (JsExport.obj none (some ExportVal.fn) none none) = true
    ∧ validationErrCode (JsExport.obj none (some ExportVal.fn) none none) = some 37
    ∧ (toLoadPromise (AppRecord.mk "mountOnly" Status.NOT_LOADED none none false)
        (LoadBehavior.resolves (JsExport.obj none (some ExportVal.fn) none none))
        0 1).record.status = Status.SKIP_BECAUSE_BROKEN := by
  refine ⟨rfl, rfl, ?_⟩
  decide

/-- C6 amended: load.js validates a resolved load result as follows: it
must be an object exposing valid mount and unmount functions, while a
bootstrap property is validated only when present; on a loadable record a
result failing this validation is marked SKIP_BECAUSE_BROKEN permanently
(no later toLoadPromise call leaves that status) without rejecting the
returned promise, and a result passing it moves the record to
NOT_BOOTSTRAPPED. -/
theorem toLoadPromise_validation (r : AppRecord) (v : JsExport) (now freshId : Nat)
    (hp : r.loadPromise = none)
    (hs : r.status = Status.NOT_LOADED ∨ r.status = Status.LOAD_ERROR) :
    ((validationErrCode v).isSome
        = !(isObject v && validLifecycleFn (getMount v)
            && validLifecycleFn (getUnmount v)
            && (!hasBootstrapProp v || validLifecycleFn (getBootstrap v))))
    ∧ ((validationErrCode v).isSome = true →
        (toLoadPromise r (LoadBehavior.resolves v) now freshId).record.status
            = Status.SKIP_BECAUSE_BROKEN
        ∧ (toLoadPromise r (LoadBehavior.resolves v) now freshId).result
            = Except.ok (toLoadPromise r (LoadBehavior.resolves v) now freshId).record
        ∧ ∀ beh n i,
            (toLoadPromise
              (toLoadPromise r (LoadBehavior.resolves v) now freshId).record
              beh n i).record.status = Status.SKIP_BECAUSE_BROKEN)
    ∧ ((validationErrCode v).isSome = false →
        (toLoadPromise r (LoadBehavior.resolves v) now freshId).record.status
            = Status.NOT_BOOTSTRAPPED) := by
  refine ⟨?_, ?_, ?_⟩
  · cases v with
    | nonObject => rfl
    | obj b m u l =>
      cases hu : validLifecycleFn u <;> cases hm : validLifecycleFn m <;>
        cases hbs : b.isSome <;> cases hbv : validLifecycleFn b <;>
        simp [validationErrCode, isObject, getMount, getUnmount, getBootstrap,
          hasBootstrapProp, hu, hm, hbs, hbv]
  · intro hv
    obtain ⟨c, hc⟩ := Option.isSome_iff_exists.mp hv
    have hrec : (toLoadPromise r (LoadBehavior.resolves v) now freshId).record
        = { r with status := Status.SKIP_BECAUSE_BROKEN, loadPromise := some freshId, loadErrorTime := none } := by
      rcases hs with h | h <;>
        simp [toLoadPromise, handleAppError, hp, h, hc]
    refine ⟨by rw [hrec], ?_, ?_⟩
    · rcases hs with h | h <;>
        simp [toLoadPromise, handleAppError, hp, h, hc]
    · intro beh n i
      rw [hrec]
      simp [toLoadPromise]
  · intro hv
    have hvn : validationErrCode v = none := by
      cases hveq : validationErrCode v with
      | none => rfl
      | some c => rw [hveq] at hv; simp at hv
    rcases hs with h | h <;>
      simp [toLoadPromise, handleAppError, hp, h, hvn]

/-- Witness for the validation theorem at a concrete loadable record and a
result lacking an unmount function. -/
theorem toLoadPromise_validation_witness :
    (toLoadPromise (AppRecord.mk "w6" Status.NOT_LOADED none none false)
        (LoadBehavior.resolves (JsExport.obj none (some ExportVal.fn) none none))
        3 2).record.status = Status.SKIP_BECAUSE_BROKEN :=
  ((toLoadPromise_validation (AppRecord.mk "w6" Status.NOT_LOADED none none false)
      (JsExport.obj none (some ExportVal.fn) none none) 3 2 rfl (Or.inl rfl)).2.1
    (by decide)).1

/-- C9 counterexample: when the load resolves with an export object that
fails validation, load.js returns from the validation branch without
deleting the stored loadPromise, so the settled record keeps a stale
in-flight marker. -/
theorem stale_load_promise_counterexample :
    (toLoadPromise (AppRecord.mk "stale" Status.NOT_LOADED none none false)
        (LoadBehavior.resolves (JsExport.obj none none none none))
        3 7).record.loadPromise = some 7
    ∧ (toLoadPromise (AppRecord.mk "stale" Status.NOT_LOADED none none false)
        (LoadBehavior.resolves (JsExport.obj none none none none))
        3 7).record.status = Status.SKIP_BECAUSE_BROKEN := by
  refine ⟨?_, ?_⟩ <;> decide

/-- C9 amended: for every record and every behaviour of its loading
function, toLoadPromise resolves with the record and never rejects; on a
loadable record the stored loadPromise is deleted when the load settles
through the success path or through the catch path (synchronous throw,
non-promise return, or rejection), but it is left set when the load
resolves with an export object failing validation. -/
theorem toLoadPromise_never_rejects (r : AppRecord) (beh : LoadBehavior)
    (now freshId : Nat) :
    (toLoadPromise r beh now freshId).result
        = Except.ok (toLoadPromise r beh now freshId).record
    ∧ (r.loadPromise = none →
        (r.status = Status.NOT_LOADED ∨ r.status = Status.LOAD_ERROR) →
        ((beh = LoadBehavior.throwsSync ∨ beh = LoadBehavior.nonPromise
            ∨ beh = LoadBehavior.rejects) →
          (toLoadPromise r beh now freshId).record.loadPromise = none)
        ∧ (∀ v, beh = LoadBehavior.resolves v → (validationErrCode v) = none →
            (toLoadPromise r beh now freshId).record.loadPromise = none)
        ∧ (∀ v, beh = LoadBehavior.resolves v → (validationErrCode v).isSome = true →
            (toLoadPromise r beh now freshId).record.loadPromise = some freshId)) := by
  constructor
  · cases hlp : r.loadPromise with
    | some p => simp [toLoadPromise, hlp]
    | none =>
      by_cases hst : r.status ≠ Status.NOT_LOADED ∧ r.status ≠ Status.LOAD_ERROR
      · simp [toLoadPromise, hlp, hst]
      · cases beh with
        | resolves v =>
          cases hv : validationErrCode v <;>
            simp [toLoadPromise, loadCatch, handleAppError, hlp, hst, hv]
        | throwsSync => simp [toLoadPromise, loadCatch, handleAppError, hlp, hst]
        | nonPromise => simp [toLoadPromise, loadCatch, handleAppError, hlp, hst]
        | rejects => simp [toLoadPromise, loadCatch, handleAppError, hlp, hst]
  · intro hp hs
    refine ⟨?_, ?_, ?_⟩
    · intro hb
      rcases hb with h | h | h <;> subst h <;> rcases hs with h | h <;>
        simp [toLoadPromise, loadCatch, handleAppError, hp, h]
    · intro v hbeh hv
      subst hbeh
      rcases hs with h | h <;>
        simp [toLoadPromise, handleAppError, hp, h, hv]
    · intro v hbeh hv
      subst hbeh
      obtain ⟨c, hc⟩ := Option.isSome_iff_exists.mp hv
      rcases hs with h | h <;>
        simp [toLoadPromise, handleAppError, hp, h, hc]

/-- Witness for the never-rejects theorem on the rejection path of a
concrete loadable record. -/
theorem toLoadPromise_never_rejects_witness :
    (toLoadPromise (AppRecord.mk "w9" Status.NOT_LOADED none none false)
        LoadBehavior.rejects 5 2).record.loadPromise = none :=
  (((toLoadPromise_never_rejects (AppRecord.mk "w9" Status.NOT_LOADED none none false)
      LoadBehavior.rejects 5 2).2 rfl (Or.inl rfl)).1) (Or.inr (Or.inr rfl))

end SingleSpa.Load

namespace SingleSpa

/-- The captured event kinds are exactly hashchange and popstate. -/
theorem routing_contains_iff (k : String) :
    routingEventsListeningTo.contains k = true ↔ (k = "hashchange" ∨ k = "popstate") := by
  constructor
  · intro h
    have hm : k ∈ routingEventsListeningTo := List.mem_of_elem_eq_true h
    simpa [routingEventsListeningTo] using hm
  · intro h
    rcases h with h | h <;> subst h <;> rfl

/-- Writing one kind of the registry and reading the same kind gives back
the written list. -/
theorem lookup_set_same (reg : Registry) (k : String) (l : List Nat)
    (hk : routingEventsListeningTo.contains k = true) :
    lookupListeners (setListeners reg k l) k = l := by
  rcases (routing_contains_iff k).mp hk with h | h <;> subst h <;>
    simp [lookupListeners, setListeners]

/-- Writing one kind of the registry leaves every other kind unchanged. -/
theorem lookup_set_other (reg : Registry) (k k2 : String) (l : List Nat)
    (hne : k2 ≠ k) :
    lookupListeners (setListeners reg k l) k2 = lookupListeners reg k2 := by
  by_cases h1 : k = "hashchange"
  · subst h1
    by_cases h2 : k2 = "popstate" <;> simp [lookupListeners, setListeners, h2, hne]
  · by_cases h3 : k = "popstate"
    · subst h3
      by_cases h2 : k2 = "hashchange" <;> simp [lookupListeners, setListeners, h1, h2, hne]
    · simp [setListeners, h1, h3]

/-- The replay loop of callCapturedEventListeners accumulates one
invocation per registered listener, in order, independently of which
invocations throw. -/
theorem replay_foldl_calls (args : EvArgs) (throws : Nat → EvArgs → Bool)
    (L : List Nat) (acc : ReplayOut) :
    (L.foldl
        (fun acc l =>
          { calls := acc.calls ++ [ListenerInvocation.mk l args],
            deferredErrors := acc.deferredErrors ++ (if throws l args then [l] else []) })
        acc).calls
      = acc.calls ++ L.map (fun l => ListenerInvocation.mk l args) := by
  induction L generalizing acc with
  | nil => simp
  | cons x xs ih => simp [ih]

/-- The invocations of callCapturedEventListeners are exactly the captured
listeners of the event kind, in registration order, each applied to the
event arguments. -/
theorem callCaptured_calls (reg : Registry) (throws : Nat → EvArgs → Bool)
    (args : EvArgs) :
    (callCapturedEventListeners reg throws (some args)).calls
      = if routingEventsListeningTo.contains args.type
        then (lookupListeners reg args.type).map (fun l => ListenerInvocation.mk l args)
        else [] := by
  simp only [callCapturedEventListeners]
  split
  · simpa using replay_foldl_calls args throws (lookupListeners reg args.type)
      { calls := [], deferredErrors := [] }
  · rfl

/-- C10: the patched listener surface keeps the captured registry free of
duplicates: adding an already-registered function leaves the registry
unchanged, adding preserves duplicate-freedom of every kind, replay
invokes each registered function exactly once per replayed event, and the
patched removeEventListener removes every occurrence of the function from
the registry of that kind. -/
theorem patched_listener_registry (w : WindowEnv) (k : String) (f : Nat)
    (hk : routingEventsListeningTo.contains k = true) :
    (f ∈ lookupListeners w.captured k →
        (patchedAddEventListener w k f).captured = w.captured)
    ∧ ((∀ k2, (lookupListeners w.captured k2).Nodup) →
        ∀ k2, (lookupListeners (patchedAddEventListener w k f).captured k2).Nodup)
    ∧ (∀ reg throws args, args.type = k →
        (lookupListeners reg k).Nodup → f ∈ lookupListeners reg k →
        ((callCapturedEventListeners reg throws (some args)).calls.map
            (fun ci => ci.listener)).count f = 1)
    ∧ (lookupListeners (patchedRemoveEventListener w k f).captured k
          = (lookupListeners w.captured k).filter (fun l => !(l == f))
      ∧ f ∉ lookupListeners (patchedRemoveEventListener w k f).captured k) := by
  refine ⟨?_, ?_, ?_, ?_, ?_⟩
  · intro hf
    have hany : (lookupListeners w.captured k).any (fun l => l == f) = true :=
      List.any_eq_true.mpr ⟨f, hf, by simp⟩
    simp [patchedAddEventListener, hk, hany]
  · intro hnd k2
    cases hany : (lookupListeners w.captured k).any (fun l => l == f) with
    | true =>
      have hcap : (patchedAddEventListener w k f).captured = w.captured := by
        simp [patchedAddEventListener, hany]
      rw [hcap]
      exact hnd k2
    | false =>
      have hni : f ∉ lookupListeners w.captured k := by
        intro hmem
        have hx := List.any_eq_false.mp hany f hmem
        simp at hx
      have hcap : (patchedAddEventListener w k f).captured
          = setListeners w.captured k (lookupListeners w.captured k ++ [f]) := by
        simp [patchedAddEventListener, hany, List.mem_of_elem_eq_true hk]
      rw [hcap]
      by_cases hsame : k2 = k
      · subst hsame
        rw [lookup_set_same _ _ _ hk]
        simp [List.nodup_append, hnd k2, hni]
      · rw [lookup_set_other _ _ _ _ hsame]
        exact hnd k2
  · intro reg throws args hty hnd hf
    rw [callCaptured_calls]
    subst hty
    rw [if_pos hk]
    simp only [List.map_map]
    have : ((lookupListeners reg args.type).map
        ((fun ci => ci.listener) ∘ fun l => ListenerInvocation.mk l args))
        = (lookupListeners reg args.type).map id := rfl
    rw [this, List.map_id]
    exact List.count_eq_one_of_mem hnd hf
  · simp only [patchedRemoveEventListener, hk, if_true]
    exact lookup_set_same _ _ _ hk
  · simp only [patchedRemoveEventListener, hk, if_true]
    rw [lookup_set_same _ _ _ hk]
    intro hmem
    have := List.of_mem_filter hmem
    simp at this

/-- Witness for the registry theorem: a duplicate registration of listener
7 for popstate leaves the concrete registry unchanged. -/
theorem patched_listener_registry_witness :
    (patchedAddEventListener
        (WindowEnv.mk (Registry.mk [] [7, 8]) [] []) "popstate" 7).captured
      = Registry.mk [] [7, 8] :=
  (patched_listener_registry (WindowEnv.mk (Registry.mk [] [7, 8]) [] [])
      "popstate" 7 (by decide)).1 (by decide)

/-- The scheduling invariant is preserved by every scheduling step. -/
theorem schedStep_inv (s : SchedState) (op : SchedOp) (h : schedInv s) :
    schedInv (schedStep s op).1 := by
  cases op with
  | externalCall req =>
    cases hu : s.appChangeUnderway <;>
      simp_all [schedStep, rerouteEntry, schedInv, hu]
  | cycleFinish =>
    cases hu : s.appChangeUnderway
    · simpa [schedStep, hu] using h
    · by_cases hw : s.peopleWaitingOnAppChange.isEmpty <;>
        simp_all [schedStep, finishUpAndReturn, schedInv, hu, hw]

/-- Each scheduling step conserves requests: the requests batched into the
cycles it starts, followed by the queue it leaves behind, are the queue it
found followed by the request it queued, if any. -/
theorem schedStep_batch (s : SchedState) (op : SchedOp) :
    ((schedStep s op).2.map (fun cs => cs.pendingPromises)).flatten
        ++ (schedStep s op).1.peopleWaitingOnAppChange
      = s.peopleWaitingOnAppChange
        ++ (match op with
            | SchedOp.externalCall req => if s.appChangeUnderway then [req] else []
            | SchedOp.cycleFinish => []) := by
  cases op with
  | externalCall req =>
    cases hu : s.appChangeUnderway <;> simp [schedStep, rerouteEntry, hu]
  | cycleFinish =>
    cases hu : s.appChangeUnderway
    · simp [schedStep, hu]
    · by_cases hw : s.peopleWaitingOnAppChange.isEmpty
      · simp [schedStep, finishUpAndReturn, hu, hw,
          List.isEmpty_iff.mp hw]
      · simp [schedStep, finishUpAndReturn, hu, hw]

/-- Request conservation over a whole stimulus sequence: the batches of all
started cycles, in order, followed by the final queue, are exactly the
initial queue followed by every request queued while a change was
underway, in arrival order. -/
theorem schedRun_conservation (ops : List SchedOp) (s : SchedState) :
    ((schedRun s ops).2.map (fun cs => cs.pendingPromises)).flatten
        ++ (schedRun s ops).1.peopleWaitingOnAppChange
      = s.peopleWaitingOnAppChange ++ queuedRequests s ops := by
  induction ops generalizing s with
  | nil => simp [schedRun, queuedRequests]
  | cons op rest ih =>
    have ihs := ih (schedStep s op).1
    have hb := schedStep_batch s op
    simp only [schedRun, queuedRequests, List.map_append, List.flatten_append,
      List.append_assoc]
    rw [ihs, ← List.append_assoc, hb]
    cases op <;> simp

/-- C2: single-flight discipline of reroute. A call while a change is
underway appends its resolve/reject pair and event payload to the FIFO
queue and starts nothing; when the running cycle finishes, exactly one
further cycle starts when the queue is non-empty, batching the whole
queue, which is emptied; requests are conserved in FIFO order across any
stimulus sequence; and the ghost count of cycles running phase-transition
logic never exceeds one. -/
theorem reroute_single_flight (s0 : SchedState) (ops : List SchedOp)
    (h0 : schedInv s0) :
    (schedRun s0 ops).1.runningCycles ≤ 1
    ∧ ((schedRun s0 ops).2.map (fun cs => cs.pendingPromises)).flatten
        ++ (schedRun s0 ops).1.peopleWaitingOnAppChange
      = s0.peopleWaitingOnAppChange ++ queuedRequests s0 ops
    ∧ (∀ s : SchedState, s.appChangeUnderway = true → ∀ req,
        rerouteEntry s req
          = ({ s with peopleWaitingOnAppChange := s.peopleWaitingOnAppChange ++ [req] }, []))
    ∧ (∀ s : SchedState, s.appChangeUnderway = true →
        (schedStep s SchedOp.cycleFinish).2
          = (if s.peopleWaitingOnAppChange.isEmpty then []
             else [CycleStart.mk s.peopleWaitingOnAppChange none false])
        ∧ (schedStep s SchedOp.cycleFinish).1.peopleWaitingOnAppChange = []) := by
  refine ⟨?_, schedRun_conservation ops s0, ?_, ?_⟩
  · have hinv : schedInv (schedRun s0 ops).1 := by
      induction ops generalizing s0 with
      | nil => simpa [schedRun] using h0
      | cons op rest ih => simpa [schedRun] using ih _ (schedStep_inv s0 op h0)
    rw [hinv]
    cases (schedRun s0 ops).1.appChangeUnderway <;> simp
  · intro s hu req
    simp [rerouteEntry, hu]
  · intro s hu
    constructor
    · by_cases hw : s.peopleWaitingOnAppChange.isEmpty <;>
        simp [schedStep, finishUpAndReturn, hu, hw]
    · by_cases hw : s.peopleWaitingOnAppChange.isEmpty
      · simp [schedStep, finishUpAndReturn, hu, hw, List.isEmpty_iff.mp hw]
      · simp [schedStep, finishUpAndReturn, hu, hw]

/-- The calls of a replay output concatenation are the concatenated
calls. -/
theorem ReplayOut_append_calls (a b : ReplayOut) :
    (ReplayOut.append a b).calls = a.calls ++ b.calls := rfl

/-- The calls of callCapturedEventListeners in declarative form, for
arguments that may be absent. -/
theorem callCaptured_calls_eq (reg : Registry) (throws : Nat → EvArgs → Bool)
    (ea : Option EvArgs) :
    (callCapturedEventListeners reg throws ea).calls
      = (match ea with
          | none => []
          | some args =>
            if routingEventsListeningTo.contains args.type
            then (lookupListeners reg args.type).map
                (fun l => ListenerInvocation.mk l args)
            else []) := by
  cases ea with
  | none => rfl
  | some args => exact callCaptured_calls reg throws args

/-- The queued-request loop of callAllEventListeners accumulates the
replayed calls of each pending request in queue order. -/
theorem callAll_pending_foldl (reg : Registry) (throws : Nat → EvArgs → Bool)
    (pending : List PendingReq) (acc : ReplayOut) :
    (pending.foldl
        (fun acc p =>
          ReplayOut.append acc (callCapturedEventListeners reg throws p.eventArguments))
        acc).calls
      = acc.calls
        ++ (pending.map
            (fun p => (callCapturedEventListeners reg throws p.eventArguments).calls)).flatten := by
  induction pending generalizing acc with
  | nil => simp
  | cons p ps ih =>
    simp only [List.foldl_cons, ih, List.map_cons, List.flatten_cons,
      ReplayOut_append_calls, List.append_assoc]

/-- The replay of a non-silent release point follows the order the
specification describes: for the event arguments of every queued pending
request oldest first and then the triggering event of the current cycle,
every captured listener of the relevant kind runs in registration
order. -/
theorem callAllEventListeners_order (reg : Registry)
    (throws : Nat → EvArgs → Bool) (pending : List PendingReq)
    (cur : Option EvArgs) :
    (callAllEventListeners false reg throws pending cur).calls
      = replaySpecCalls reg pending cur := by
  simp only [callAllEventListeners, Bool.false_eq_true, if_false,
    ReplayOut_append_calls, callAll_pending_foldl]
  simp only [replaySpecCalls, List.map_append, List.flatten_append,
    List.map_map, List.map_cons, List.map_nil, List.flatten_cons,
    List.flatten_nil, List.append_nil, List.nil_append]
  rw [callCaptured_calls_eq reg throws cur]
  congr 1
  congr 1
  apply List.map_congr_left
  intro p _
  exact callCaptured_calls_eq reg throws p.eventArguments

/-- C5 counterexample: in the concrete sample cycle the captured listeners
are released exactly once, at instant 11 where the unmount/unload phase
settles, and no release happens at instant 12 where the cycle completes,
so there is no second release at full cycle completion. -/
theorem released_once_not_twice :
    ((Reroute.performAppChanges Reroute.envSample Reroute.cycleSample 0
        false).events.filter
        (fun e => e.kind == Reroute.EvKind.release)).length = 1
    ∧ (Reroute.performAppChanges Reroute.envSample Reroute.cycleSample 0
        false).settle = 12
    ∧ Reroute.Ev.mk 12 12 Reroute.EvKind.release
        ∉ (Reroute.performAppChanges Reroute.envSample Reroute.cycleSample 0
            false).events := by
  refine ⟨by decide, by decide, by decide⟩

/-- C5 amended: in every cycle the buffered navigation events are released
exactly once, at the boundary where the unmount/unload phase settles, and
the release invokes every captured listener of the relevant kind in
registration order, first with the event arguments of each queued pending
request oldest first and then with the triggering event of the current
cycle. -/
theorem release_once_and_replay_order (env : Reroute.Env) (c : Reroute.Cycle)
    (t : Nat) :
    (((Reroute.performAppChanges env c t false).events.filter
        (fun e => e.kind == Reroute.EvKind.release)).map (fun e => e.start)
      = [Reroute.unmountAllSettle env c t])
    ∧ ∀ (reg : Registry) (throws : Nat → EvArgs → Bool)
        (pending : List PendingReq) (cur : Option EvArgs),
        (callAllEventListeners false reg throws pending cur).calls
          = replaySpecCalls reg pending cur :=
  ⟨Reroute.performAppChanges_release_points env c t false,
    fun reg throws pending cur =>
      callAllEventListeners_order reg throws pending cur⟩

/-- Witness for the single-flight theorem: two overlapping calls and two
cycle completions from the idle state keep the running-cycle count at
most one. -/
theorem reroute_single_flight_witness :
    (schedRun (SchedState.mk false [] 0)
        [SchedOp.externalCall (PendingReq.mk 1 none),
          SchedOp.externalCall (PendingReq.mk 2 none),
          SchedOp.cycleFinish, SchedOp.cycleFinish]).1.runningCycles ≤ 1 :=
  (reroute_single_flight (SchedState.mk false [] 0)
      [SchedOp.externalCall (PendingReq.mk 1 none),
        SchedOp.externalCall (PendingReq.mk 2 none),
        SchedOp.cycleFinish, SchedOp.cycleFinish] rfl).1

/-- C4: when some cancellation value of a non-silent cycle settles truthy,
the cancel branch reverts the location to the pre-cycle URL through the
saved original replaceState, which dispatches nothing (the patched
replaceState would dispatch a popstate, re-entering reroute, whenever the
URL changes), updates currentUrl to the reverted location, clears the
in-flight flag, and starts exactly one new cycle with the same pending
promises and event payload and with silentNavigation set. In that silent
cycle no single-spa notification is dispatched and no captured listener
is replayed, and because the before-routing-event dispatch is suppressed
no cancellation value can be collected, so the silent cycle changes
nothing further and the final URL is the pre-cycle URL. -/
theorem cancel_reverts_and_silences
    (inputs : List (Except String Bool)) (g : RerouteGlobals) (w : NavState)
    (oldUrl : String) (pending : List PendingReq) (evArgs : Option EvArgs)
    (h : navigationIsCanceled (cancelValuesCollected false inputs) = true) :
    ((cancelCheckStep false inputs g w oldUrl pending evArgs).2.1.windowUrl
        = oldUrl
      ∧ (cancelCheckStep false inputs g w oldUrl pending evArgs).2.1.dispatched
          = w.dispatched
      ∧ (cancelCheckStep false inputs g w oldUrl pending evArgs).1.currentUrl
          = oldUrl
      ∧ (cancelCheckStep false inputs g w oldUrl pending evArgs).1.appChangeUnderway
          = false
      ∧ (cancelCheckStep false inputs g w oldUrl pending evArgs).2.2
          = some (CycleStart.mk pending evArgs true))
    ∧ (∀ (w2 : NavState) (u : String),
        (originalReplaceState w2 u).dispatched = w2.dispatched)
    ∧ (∀ (w2 : NavState) (u : String), (w2.windowUrl == u) = false →
        (patchedUpdateState true w2 u).dispatched
          = w2.dispatched ++ ["popstate"])
    ∧ (∀ (inputs2 : List (Except String Bool)) (g2 : RerouteGlobals)
        (w2 : NavState) (o2 : String) (p2 : List PendingReq)
        (e2 : Option EvArgs),
        cancelCheckStep true inputs2 g2 w2 o2 p2 e2 = (g2, w2, none))
    ∧ (∀ (env : Reroute.Env) (c : Reroute.Cycle) (t2 : Nat),
        (Reroute.performAppChanges env c t2 true).events.filter
            (fun e => match e.kind with
              | Reroute.EvKind.fire _ => true
              | _ => false)
          = [])
    ∧ (∀ (reg : Registry) (throws : Nat → EvArgs → Bool)
        (p2 : List PendingReq) (cur : Option EvArgs),
        callAllEventListeners true reg throws p2 cur = ReplayOut.mk [] []) := by
  refine ⟨?_, fun w2 u => rfl, ?_, ?_, ?_, ?_⟩
  · simp [cancelCheckStep, h, originalReplaceState]
  · intro w2 u hne
    simp [patchedUpdateState, hne]
  · intro inputs2 g2 w2 o2 p2 e2
    simp [cancelCheckStep, cancelValuesCollected, navigationIsCanceled]
  · intro env c t2
    exact Reroute.performAppChanges_silent_no_fire env c t2
  · intro reg throws p2 cur
    rfl

/-- Witness for the cancellation theorem with one truthy cancel input. -/
theorem cancel_reverts_and_silences_witness :
    (cancelCheckStep false [Except.ok true]
        (RerouteGlobals.mk "newUrl" true) (NavState.mk "newUrl" [])
        "oldUrl" [] none).2.1.windowUrl = "oldUrl" :=
  (cancel_reverts_and_silences [Except.ok true]
      (RerouteGlobals.mk "newUrl" true) (NavState.mk "newUrl" [])
      "oldUrl" [] none (by decide)).1.1

end SingleSpa
